import Mathlib

/-!
Verification of the equal-teams solver.

This file gives a shallow embedding, in Lean 4, of the two Python modules of
the repository:

* `equal_teams_solver.py` — the subset enumerator (`get_5_subsets`), the
  disjoint equal-sum pair finder (`find_equal_pair`), the score-projection
  semantics of the CP-SAT base model (`satisfiesBase`), the CEGAR refinement
  loop (`cegarLoop`, plus the timed single iteration `cegar_iteration`) and
  the static driver (`prove_static`).
* `example_checker.py` — token parsing (`parse_int_lead` for parse_int_prefix , `parse_values`),
  the inline bucket scan (`checker_find`) and the CLI control flow
  (`checker_main`).

The external CP-SAT solver is out of scope for the repository and is modelled
as an oracle function; hypotheses on the oracle (it answers UNSAT only for
unsatisfiable problems, and SAT only with assignments satisfying every
constraint of the problem it was handed) mirror the solver contract stated in
the specification.  Theorems about the drivers are proved for every oracle
satisfying those hypotheses.
-/

set_option maxRecDepth 100000

namespace EqualTeams

/-! ### Subset enumeration (`get_5_subsets`, `itertools.combinations`) -/

/-- `combosList xs k` lists all `k`-element sublists of `xs`, in the order
produced by Python's `itertools.combinations`: for `xs` sorted, output tuples
are in lexicographic order. -/
def combosList : List ℕ → ℕ → List (List ℕ)
  | _, 0 => [[]]
  | [], _ + 1 => []
  | x :: xs, k + 1 => (combosList xs k).map (fun t => x :: t) ++ combosList xs (k + 1)

/-- `get_5_subsets N` from `equal_teams_solver.py`: all 5-element subsets of
`range(N)` (the `TEAMS_CACHE` memoisation is a pure caching optimisation and
does not change the returned value). -/
def get_5_subsets (N : ℕ) : List (List ℕ) :=
  combosList (List.range N) 5

/-! ### The disjoint equal-sum pair finder (`find_equal_pair`) -/

/-- `sum(scores[i] for i in T)`.  All indices produced by the enumerator are
in range, so the default value of `getD` is never read on the code's inputs. -/
def sumAt (scores : List Int) (T : List ℕ) : Int :=
  (T.map (fun i => scores.getD i 0)).sum

/-- `set(T).isdisjoint(U)`. -/
def disjointB (T U : List ℕ) : Bool :=
  T.all (fun i => !(U.contains i))

/-- The loop of `find_equal_pair`: iterate over the remaining subsets,
carrying the `by_sum` buckets (Python dict: sum ↦ subsets seen so far with
that sum, in insertion order).  For the current subset `T`, scan its bucket in
insertion order for the first earlier subset `U` disjoint from `T`; on a hit
return `(T, U)` immediately, otherwise append `T` to its bucket and
continue. -/
def findEqualPairAux (scores : List Int) :
    List (List ℕ) → (Int → List (List ℕ)) → Option (List ℕ × List ℕ)
  | [], _ => none
  | T :: rest, bySum =>
    match (bySum (sumAt scores T)).find? (fun U => disjointB T U) with
    | some U => some (T, U)
    | none =>
        findEqualPairAux scores rest
          (fun s => if s = sumAt scores T then bySum s ++ [T] else bySum s)

/-- `find_equal_pair(scores)` from `equal_teams_solver.py`: a disjoint pair of
5-element index subsets of `scores` with equal sum, or `none`. -/
def find_equal_pair (scores : List Int) : Option (List ℕ × List ℕ) :=
  findEqualPairAux scores (get_5_subsets scores.length) (fun _ => [])

/-! ### Properties of the enumerator -/

lemma mem_combosList : ∀ (xs : List ℕ) (k : ℕ) (l : List ℕ),
    l ∈ combosList xs k ↔ l.Sublist xs ∧ l.length = k := by
  intro xs
  induction xs with
  | nil =>
    intro k l
    cases k with
    | zero => simp [combosList, List.length_eq_zero]
    | succ k =>
      simp only [combosList, List.not_mem_nil, false_iff, not_and]
      intro hsub
      rw [List.sublist_nil.1 hsub]
      simp
  | cons x xs ih =>
    intro k l
    cases k with
    | zero =>
      simp only [combosList, List.mem_singleton]
      constructor
      · rintro rfl; exact ⟨List.nil_sublist _, rfl⟩
      · rintro ⟨-, hlen⟩; exact List.length_eq_zero.1 hlen
    | succ k =>
      simp only [combosList, List.mem_append, List.mem_map]
      constructor
      · rintro (⟨t, ht, rfl⟩ | h)
        · obtain ⟨hsub, hlen⟩ := (ih k t).1 ht
          exact ⟨hsub.cons₂ x, by simp [hlen]⟩
        · obtain ⟨hsub, hlen⟩ := (ih (k + 1) l).1 h
          exact ⟨hsub.cons x, hlen⟩
      · rintro ⟨hsub, hlen⟩
        rcases List.sublist_cons_iff.1 hsub with h | ⟨r, rfl, hr⟩
        · exact Or.inr ((ih (k + 1) l).2 ⟨h, hlen⟩)
        · exact Or.inl ⟨r, (ih k r).2 ⟨hr, by simpa using hlen⟩, rfl⟩

lemma mem_get_5_subsets {N : ℕ} {l : List ℕ} :
    l ∈ get_5_subsets N ↔ l.Sublist (List.range N) ∧ l.length = 5 :=
  mem_combosList _ _ _

lemma get_5_subsets_props {N : ℕ} {l : List ℕ} (h : l ∈ get_5_subsets N) :
    l.length = 5 ∧ l.Nodup ∧ l.Pairwise (· < ·) ∧ ∀ i ∈ l, i < N := by
  obtain ⟨hsub, hlen⟩ := mem_get_5_subsets.1 h
  have hpw : l.Pairwise (· < ·) := (List.pairwise_lt_range N).sublist hsub
  exact ⟨hlen, hsub.nodup (List.nodup_range N), hpw,
    fun i hi => List.mem_range.1 (hsub.subset hi)⟩

lemma pairwise_lt_sublist_range' :
    ∀ (l : List ℕ) (s len : ℕ), l.Pairwise (· < ·) →
      (∀ x ∈ l, s ≤ x ∧ x < s + len) → l.Sublist (List.range' s len) := by
  intro l s len
  induction len generalizing l s with
  | zero =>
    intro _ hb
    cases l with
    | nil => simp
    | cons a t => have := hb a (List.mem_cons_self a t); omega
  | succ len ih =>
    intro hpw hb
    rw [List.range'_succ]
    cases l with
    | nil => exact List.nil_sublist _
    | cons a t =>
      have hpc := List.pairwise_cons.1 hpw
      rcases Nat.eq_or_lt_of_le (hb a (List.mem_cons_self a t)).1 with heq | hlt
      · rw [heq]
        refine List.Sublist.cons₂ a (ih t (a + 1) hpc.2 ?_)
        intro x hx
        have hax : a < x := hpc.1 x hx
        have hxb := hb x (List.mem_cons_of_mem a hx)
        omega
      · refine List.Sublist.cons s (ih (a :: t) (s + 1) hpw ?_)
        intro x hx
        have hxb := hb x hx
        rcases List.mem_cons.1 hx with rfl | hxt
        · omega
        · have hax : a < x := hpc.1 x hxt
          omega

lemma mem_get_5_subsets_of_pairwise {N : ℕ} {l : List ℕ}
    (hpw : l.Pairwise (· < ·)) (hlen : l.length = 5) (hb : ∀ x ∈ l, x < N) :
    l ∈ get_5_subsets N := by
  refine mem_get_5_subsets.2 ⟨?_, hlen⟩
  rw [List.range_eq_range']
  exact pairwise_lt_sublist_range' l 0 N hpw
    (fun x hx => ⟨Nat.zero_le x, by simpa using hb x hx⟩)

/-! ### Disjointness facts -/

lemma disjointB_iff {T U : List ℕ} : disjointB T U = true ↔ ∀ i ∈ T, i ∉ U := by
  simp [disjointB]

lemma disjointB_symm {T U : List ℕ} (h : disjointB T U = true) : disjointB U T = true := by
  rw [disjointB_iff] at h ⊢
  intro i hiU hiT
  exact h i hiT hiU

/-! ### Bucket characterisation of the running `by_sum` dictionary -/

/-- The value of the `by_sum` dictionary after the subsets in `processed` have
been scanned without a hit: the bucket of a sum `s` holds exactly the processed
subsets of sum `s`, in processing order. -/
def bucketFn (scores : List Int) (processed : List (List ℕ)) : Int → List (List ℕ) :=
  fun s => processed.filter (fun U => sumAt scores U == s)

lemma bucketFn_nil (scores : List Int) : bucketFn scores [] = fun _ => [] := rfl

lemma mem_bucketFn {scores : List Int} {processed : List (List ℕ)} {s : Int}
    {U : List ℕ} :
    U ∈ bucketFn scores processed s ↔ U ∈ processed ∧ sumAt scores U = s := by
  simp [bucketFn]

lemma bucketFn_step (scores : List Int) (processed : List (List ℕ)) (T : List ℕ) :
    (fun s => if s = sumAt scores T then bucketFn scores processed s ++ [T]
              else bucketFn scores processed s) =
      bucketFn scores (processed ++ [T]) := by
  funext s
  simp only [bucketFn, List.filter_append, List.filter_cons, List.filter_nil]
  by_cases h : sumAt scores T = s
  · simp [h]
  · have h' : ¬s = sumAt scores T := fun hh => h hh.symm
    simp [beq_iff_eq, h, h']

/-- A successful run of the finder's loop, dissected: the hit subset `T`
splits the pending list, its partner `U` is the `find?`-first disjoint member
of the bucket of `sumAt T` built from everything processed before `T`, and no
subset processed before `T` had a disjoint partner in its own bucket. -/
lemma findEqualPairAux_some (scores : List Int) :
    ∀ (pending processed : List (List ℕ)) (T U : List ℕ),
      findEqualPairAux scores pending (bucketFn scores processed) = some (T, U) →
      ∃ pre post, pending = pre ++ T :: post ∧
        (bucketFn scores (processed ++ pre) (sumAt scores T)).find?
            (fun X => disjointB T X) = some U ∧
        ∀ pre1 T1 post1, pre = pre1 ++ T1 :: post1 →
          (bucketFn scores (processed ++ pre1) (sumAt scores T1)).find?
              (fun X => disjointB T1 X) = none := by
  intro pending
  induction pending with
  | nil =>
    intro processed T U h
    simp [findEqualPairAux] at h
  | cons X rest ih =>
    intro processed T U h
    rw [findEqualPairAux] at h
    split at h
    · rename_i U0 hfind
      simp only [Option.some.injEq, Prod.mk.injEq] at h
      obtain ⟨rfl, rfl⟩ := h
      refine ⟨[], rest, rfl, by simpa using hfind, ?_⟩
      intro pre1 T1 post1 hsplit
      exact absurd hsplit (by cases pre1 <;> simp)
    · rename_i hfind
      rw [bucketFn_step] at h
      obtain ⟨pre', post', hpend, hfound, hnone⟩ := ih (processed ++ [X]) T U h
      refine ⟨X :: pre', post', by rw [hpend]; rfl, ?_, ?_⟩
      · rw [show processed ++ X :: pre' = (processed ++ [X]) ++ pre' by simp]
        exact hfound
      · intro pre1 T1 post1 hsplit
        cases pre1 with
        | nil =>
          simp only [List.nil_append, List.cons.injEq] at hsplit
          obtain ⟨rfl, rfl⟩ := hsplit
          simpa using hfind
        | cons Y pre1' =>
          simp only [List.cons_append, List.cons.injEq] at hsplit
          obtain ⟨rfl, hsplit'⟩ := hsplit
          rw [show processed ++ X :: pre1' = (processed ++ [X]) ++ pre1' by simp]
          exact hnone pre1' T1 post1 hsplit'

/-- A failed run of the finder's loop: no pending subset is disjoint from an
already-processed subset of equal sum, and within the pending list no later
subset is disjoint from an earlier one of equal sum. -/
lemma findEqualPairAux_none (scores : List Int) :
    ∀ (pending processed : List (List ℕ)),
      findEqualPairAux scores pending (bucketFn scores processed) = none →
      (∀ T ∈ pending, ∀ U ∈ processed, sumAt scores U = sumAt scores T →
          disjointB T U = false) ∧
      pending.Pairwise
        (fun U T => sumAt scores U = sumAt scores T → disjointB T U = false) := by
  intro pending
  induction pending with
  | nil => intro processed _; exact ⟨by simp, List.Pairwise.nil⟩
  | cons X rest ih =>
    intro processed h
    rw [findEqualPairAux] at h
    split at h
    · simp at h
    · rename_i hfind
      rw [bucketFn_step] at h
      obtain ⟨hA, hB⟩ := ih (processed ++ [X]) h
      have hXnone : ∀ U ∈ processed, sumAt scores U = sumAt scores X →
          disjointB X U = false := by
        intro U hU hsum
        have := List.find?_eq_none.1 hfind U (mem_bucketFn.2 ⟨hU, hsum⟩)
        simpa using this
      refine ⟨?_, ?_⟩
      · intro T hT U hU hsum
        rcases List.mem_cons.1 hT with rfl | hT'
        · exact hXnone U hU hsum
        · exact hA T hT' U (by simp [hU]) hsum
      · refine List.pairwise_cons.2 ⟨?_, hB⟩
        intro T hT hsum
        exact hA T hT X (by simp) hsum

/-- Success facts of `find_equal_pair`, as split data on the enumeration. -/
lemma find_equal_pair_some_spec {V : List Int} {T U : List ℕ}
    (h : find_equal_pair V = some (T, U)) :
    ∃ pre post, get_5_subsets V.length = pre ++ T :: post ∧
      (bucketFn V pre (sumAt V T)).find? (fun X => disjointB T X) = some U ∧
      (∀ pre1 T1 post1, pre = pre1 ++ T1 :: post1 →
        (bucketFn V pre1 (sumAt V T1)).find? (fun X => disjointB T1 X) = none) := by
  have h' : findEqualPairAux V (get_5_subsets V.length) (bucketFn V []) = some (T, U) := by
    rw [bucketFn_nil]; exact h
  obtain ⟨pre, post, hsplit, hfound, hnone⟩ := findEqualPairAux_some V _ [] T U h'
  rw [List.nil_append] at hfound
  refine ⟨pre, post, hsplit, hfound, ?_⟩
  intro pre1 T1 post1 hs
  have := hnone pre1 T1 post1 hs
  rwa [List.nil_append] at this

/-- Membership, disjointness and equal-sum facts of a successful
`find_equal_pair`. -/
lemma find_equal_pair_some_props {V : List Int} {T U : List ℕ}
    (h : find_equal_pair V = some (T, U)) :
    T ∈ get_5_subsets V.length ∧ U ∈ get_5_subsets V.length ∧
      disjointB T U = true ∧ sumAt V U = sumAt V T := by
  obtain ⟨pre, post, hsplit, hfound, -⟩ := find_equal_pair_some_spec h
  have hUmem := mem_bucketFn.1 (List.mem_of_find?_eq_some hfound)
  refine ⟨?_, ?_, List.find?_some hfound, hUmem.2⟩
  · rw [hsplit]; exact List.mem_append_right _ (List.mem_cons_self _ _)
  · rw [hsplit]; exact List.mem_append_left _ hUmem.1

/-- Pairwise no-match fact of an unsuccessful `find_equal_pair`. -/
lemma find_equal_pair_none_pairwise {V : List Int} (h : find_equal_pair V = none) :
    (get_5_subsets V.length).Pairwise
      (fun U T => sumAt V U = sumAt V T → disjointB T U = false) := by
  have h' : findEqualPairAux V (get_5_subsets V.length) (bucketFn V []) = none := by
    rw [bucketFn_nil]; exact h
  exact (findEqualPairAux_none V _ [] h').2

/-! ### Bridging between index lists and index sets -/

lemma sort_mem_get_5_subsets {N : ℕ} {S : Finset ℕ} (hcard : S.card = 5)
    (hb : ∀ i ∈ S, i < N) : S.sort (· ≤ ·) ∈ get_5_subsets N := by
  refine mem_get_5_subsets_of_pairwise S.sort_sorted_lt ?_ ?_
  · rw [Finset.length_sort]; exact hcard
  · intro x hx
    exact hb x ((Finset.mem_sort _).1 hx)

lemma sumAt_sort {V : List Int} (S : Finset ℕ) :
    sumAt V (S.sort (· ≤ ·)) = ∑ i ∈ S, V.getD i 0 := by
  rw [sumAt, ← List.sum_toFinset _ (S.sort_nodup (· ≤ ·)), Finset.sort_toFinset]

lemma noMatchRel_symm (V : List Int) :
    Symmetric (fun U T : List ℕ => sumAt V U = sumAt V T → disjointB T U = false) := by
  intro X Y hXY hsum
  by_contra hc
  rw [Bool.not_eq_false] at hc
  have h2 := hXY hsum.symm
  rw [disjointB_symm hc] at h2
  simp at h2

/-! ### Claim C1: soundness of the finder -/

/-- C1: if `find_equal_pair V` returns a pair `(T, U)`, then `T` and `U` are
each sets of exactly 5 distinct indices into `V`, they are disjoint, and the
elements of `V` at the indices of `T` sum to the same value as those at the
indices of `U`. -/
theorem C1_find_equal_pair_sound (V : List Int) (T U : List ℕ)
    (h : find_equal_pair V = some (T, U)) :
    T.length = 5 ∧ T.Nodup ∧ (∀ i ∈ T, i < V.length) ∧
      U.length = 5 ∧ U.Nodup ∧ (∀ i ∈ U, i < V.length) ∧
      (∀ i ∈ T, i ∉ U) ∧ sumAt V T = sumAt V U := by
  obtain ⟨hT, hU, hdisj, hsum⟩ := find_equal_pair_some_props h
  obtain ⟨hTlen, hTnd, -, hTb⟩ := get_5_subsets_props hT
  obtain ⟨hUlen, hUnd, -, hUb⟩ := get_5_subsets_props hU
  exact ⟨hTlen, hTnd, hTb, hUlen, hUnd, hUb, disjointB_iff.1 hdisj, hsum.symm⟩

theorem C1_witness :
    find_equal_pair [1, 1, 1, 1, 1, 1, 1, 1, 1, 1] =
        some ([1, 2, 3, 4, 5], [0, 6, 7, 8, 9]) ∧
      (([1, 2, 3, 4, 5] : List ℕ).length = 5 ∧ ([1, 2, 3, 4, 5] : List ℕ).Nodup ∧
        (∀ i ∈ ([1, 2, 3, 4, 5] : List ℕ),
            i < ([1, 1, 1, 1, 1, 1, 1, 1, 1, 1] : List Int).length) ∧
        ([0, 6, 7, 8, 9] : List ℕ).length = 5 ∧ ([0, 6, 7, 8, 9] : List ℕ).Nodup ∧
        (∀ i ∈ ([0, 6, 7, 8, 9] : List ℕ),
            i < ([1, 1, 1, 1, 1, 1, 1, 1, 1, 1] : List Int).length) ∧
        (∀ i ∈ ([1, 2, 3, 4, 5] : List ℕ), i ∉ ([0, 6, 7, 8, 9] : List ℕ)) ∧
        sumAt [1, 1, 1, 1, 1, 1, 1, 1, 1, 1] [1, 2, 3, 4, 5] =
          sumAt [1, 1, 1, 1, 1, 1, 1, 1, 1, 1] [0, 6, 7, 8, 9]) := by
  have h : find_equal_pair [1, 1, 1, 1, 1, 1, 1, 1, 1, 1] =
      some ([1, 2, 3, 4, 5], [0, 6, 7, 8, 9]) := by decide
  exact ⟨h, C1_find_equal_pair_sound _ _ _ h⟩

/-! ### Claim C9: totality on short inputs -/

/-- C9: on any list of fewer than 10 values — in particular fewer than 5,
where no 5-subsets exist at all — `find_equal_pair` returns `none` (and, being
a total Lean function, raises no exception). -/
theorem C9_short_input_none (V : List Int) (h : V.length < 10) :
    find_equal_pair V = none := by
  cases heq : find_equal_pair V with
  | none => rfl
  | some p =>
    exfalso
    obtain ⟨T, U⟩ := p
    obtain ⟨hT, hU, hdisj, -⟩ := find_equal_pair_some_props heq
    obtain ⟨hTlen, hTnd, -, hTb⟩ := get_5_subsets_props hT
    obtain ⟨hUlen, hUnd, -, hUb⟩ := get_5_subsets_props hU
    have hsub : T.toFinset ∪ U.toFinset ⊆ Finset.range V.length := by
      intro i hi
      rcases Finset.mem_union.1 hi with hi | hi
      · exact Finset.mem_range.2 (hTb i (List.mem_toFinset.1 hi))
      · exact Finset.mem_range.2 (hUb i (List.mem_toFinset.1 hi))
    have hdis : Disjoint T.toFinset U.toFinset := by
      rw [Finset.disjoint_left]
      intro i hiT hiU
      exact disjointB_iff.1 hdisj i (List.mem_toFinset.1 hiT) (List.mem_toFinset.1 hiU)
    have hcard := Finset.card_le_card hsub
    rw [Finset.card_union_of_disjoint hdis, Finset.card_range,
      List.toFinset_card_of_nodup hTnd, List.toFinset_card_of_nodup hUnd,
      hTlen, hUlen] at hcard
    omega

theorem C9_witness :
    ([1, 2, 3] : List Int).length < 10 ∧ find_equal_pair [1, 2, 3] = none :=
  ⟨by decide, C9_short_input_none [1, 2, 3] (by decide)⟩

/-! ### Claim C2: completeness of the finder -/

/-- The spec-side exhaustive ground truth for C2, stated over arbitrary finite
index sets (not the enumerator's sorted lists): some pair of disjoint
5-element sets of in-range indices has equal sums over `V`. -/
def bruteForceEqualPairExists (V : List Int) : Prop :=
  ∃ T U : Finset ℕ, T.card = 5 ∧ U.card = 5 ∧
    (∀ i ∈ T, i < V.length) ∧ (∀ i ∈ U, i < V.length) ∧ Disjoint T U ∧
    ∑ i ∈ T, V.getD i 0 = ∑ i ∈ U, V.getD i 0

/-- C2: `find_equal_pair V = none` exactly when the exhaustive brute-force
check finds no pair of disjoint 5-element index subsets of `V` with equal
sums. -/
theorem C2_find_equal_pair_complete (V : List Int) :
    find_equal_pair V = none ↔ ¬bruteForceEqualPairExists V := by
  constructor
  · rintro hnone ⟨T, U, hTc, hUc, hTb, hUb, hdis, hsum⟩
    have hTl := sort_mem_get_5_subsets hTc hTb
    have hUl := sort_mem_get_5_subsets hUc hUb
    have hne : T.sort (· ≤ ·) ≠ U.sort (· ≤ ·) := by
      intro hEq
      have hTU : T = U := by
        rw [← Finset.sort_toFinset (· ≤ ·) T, ← Finset.sort_toFinset (· ≤ ·) U, hEq]
      subst hTU
      rw [disjoint_self] at hdis
      rw [hdis] at hTc
      simp at hTc
    have hrel := (find_equal_pair_none_pairwise hnone).forall (noMatchRel_symm V)
      hTl hUl hne
    have hsums : sumAt V (T.sort (· ≤ ·)) = sumAt V (U.sort (· ≤ ·)) := by
      rw [sumAt_sort, sumAt_sort]; exact hsum
    have hfalse := hrel hsums
    have htrue : disjointB (U.sort (· ≤ ·)) (T.sort (· ≤ ·)) = true := by
      rw [disjointB_iff]
      intro i hiU hiT
      exact Finset.disjoint_left.1 hdis ((Finset.mem_sort _).1 hiT)
        ((Finset.mem_sort _).1 hiU)
    rw [htrue] at hfalse
    simp at hfalse
  · intro hno
    cases heq : find_equal_pair V with
    | none => rfl
    | some p =>
      exfalso
      apply hno
      obtain ⟨T, U⟩ := p
      obtain ⟨hT, hU, hdisj, hsum⟩ := find_equal_pair_some_props heq
      obtain ⟨hTlen, hTnd, -, hTb⟩ := get_5_subsets_props hT
      obtain ⟨hUlen, hUnd, -, hUb⟩ := get_5_subsets_props hU
      refine ⟨T.toFinset, U.toFinset, ?_, ?_, ?_, ?_, ?_, ?_⟩
      · rw [List.toFinset_card_of_nodup hTnd, hTlen]
      · rw [List.toFinset_card_of_nodup hUnd, hUlen]
      · intro i hi; exact hTb i (List.mem_toFinset.1 hi)
      · intro i hi; exact hUb i (List.mem_toFinset.1 hi)
      · rw [Finset.disjoint_left]
        intro i hiT hiU
        exact disjointB_iff.1 hdisj i (List.mem_toFinset.1 hiT)
          (List.mem_toFinset.1 hiU)
      · rw [List.sum_toFinset _ hTnd, List.sum_toFinset _ hUnd]
        exact hsum.symm

/-! ### Claim C7: order of the returned components and first-match -/

/-- C7 counterexample: on ten equal values the finder returns the pair
`([1,2,3,4,5], [0,6,7,8,9])`, whose first component occurs strictly later in
the enumeration than its second component — so the claim that the first
component is the earlier-bucketed subset fails on this input. -/
theorem C7_counterexample :
    find_equal_pair [1, 1, 1, 1, 1, 1, 1, 1, 1, 1] =
        some ([1, 2, 3, 4, 5], [0, 6, 7, 8, 9]) ∧
      (get_5_subsets 10).indexOf [0, 6, 7, 8, 9] <
        (get_5_subsets 10).indexOf [1, 2, 3, 4, 5] ∧
      ¬((get_5_subsets 10).indexOf [1, 2, 3, 4, 5] <
        (get_5_subsets 10).indexOf [0, 6, 7, 8, 9]) := by
  decide

/-- C7 (amended): when the finder returns `(T, U)`, the first component `T`
is the later-encountered subset and the second component `U` the
earlier-bucketed one: the enumeration splits as `pre ++ T :: post` with
`U ∈ pre`; `U` is the `find?`-first disjoint subset, in insertion order, of
the bucket of subsets of `pre` with sum `sumAt V T`; and the search
short-circuits: no subset `T1` processed before `T` had a disjoint equal-sum
partner in its own bucket. -/
theorem C7_first_match (V : List Int) (T U : List ℕ)
    (h : find_equal_pair V = some (T, U)) :
    ∃ pre post, get_5_subsets V.length = pre ++ T :: post ∧ U ∈ pre ∧
      (bucketFn V pre (sumAt V T)).find? (fun X => disjointB T X) = some U ∧
      ∀ pre1 T1 post1, pre = pre1 ++ T1 :: post1 →
        (bucketFn V pre1 (sumAt V T1)).find? (fun X => disjointB T1 X) = none := by
  obtain ⟨pre, post, hsplit, hfound, hnone⟩ := find_equal_pair_some_spec h
  exact ⟨pre, post, hsplit,
    (mem_bucketFn.1 (List.mem_of_find?_eq_some hfound)).1, hfound, hnone⟩

theorem C7_witness :
    ∃ pre post,
      get_5_subsets ([1, 1, 1, 1, 1, 1, 1, 1, 1, 1] : List Int).length =
          pre ++ ([1, 2, 3, 4, 5] : List ℕ) :: post ∧
        ([0, 6, 7, 8, 9] : List ℕ) ∈ pre ∧
        (bucketFn [1, 1, 1, 1, 1, 1, 1, 1, 1, 1] pre
              (sumAt [1, 1, 1, 1, 1, 1, 1, 1, 1, 1] [1, 2, 3, 4, 5])).find?
            (fun X => disjointB [1, 2, 3, 4, 5] X) = some [0, 6, 7, 8, 9] ∧
        ∀ pre1 T1 post1, pre = pre1 ++ T1 :: post1 →
          (bucketFn [1, 1, 1, 1, 1, 1, 1, 1, 1, 1] pre1
              (sumAt [1, 1, 1, 1, 1, 1, 1, 1, 1, 1] T1)).find?
            (fun X => disjointB T1 X) = none :=
  C7_first_match [1, 1, 1, 1, 1, 1, 1, 1, 1, 1] [1, 2, 3, 4, 5] [0, 6, 7, 8, 9]
    (by decide)

/-! ### The standalone checker (`example_checker.py`) -/

/-- Python `str.split(',')` on a character list: split at every comma,
keeping empty pieces. -/
def splitOnComma : List Char → List (List Char)
  | [] => [[]]
  | c :: rest =>
    if c = ',' then [] :: splitOnComma rest
    else
      match splitOnComma rest with
      | [] => [[c]]
      | r :: rs => (c :: r) :: rs

/-- Python `str.strip()`: remove leading and trailing whitespace. -/
def stripChars (s : List Char) : List Char :=
  ((s.dropWhile Char.isWhitespace).reverse.dropWhile Char.isWhitespace).reverse

/-- Decimal value of a digit string. -/
def digitsVal (ds : List Char) : ℕ :=
  ds.foldl (fun acc c => 10 * acc + (c.toNat - '0'.toNat)) 0

/-- The function parse_int_prefix (s) of `example_checker.py`: the value of the regex
match `^([+-]?\d+)` at the start of `s`, or `none` when `s` does not begin
with an optional-sign integer. -/
def parse_int_lead (s : List Char) : Option Int :=
  match s with
  | [] => none
  | c :: rest =>
    if c = '+' then
      match rest.takeWhile Char.isDigit with
      | [] => none
      | ds => some ((digitsVal ds : ℕ) : Int)
    else if c = '-' then
      match rest.takeWhile Char.isDigit with
      | [] => none
      | ds => some (-((digitsVal ds : ℕ) : Int))
    else
      match s.takeWhile Char.isDigit with
      | [] => none
      | ds => some ((digitsVal ds : ℕ) : Int)

/-- The value list built by the checker's `main`: each CLI argument is split
on commas and each part stripped; empty parts are skipped, parts with an
integer prefix contribute their value, parts without one are skipped with a
warning. -/
def parse_values (args : List (List Char)) : List Int :=
  args.flatMap (fun arg =>
    ((splitOnComma arg).map stripChars).filterMap (fun part =>
      if part = [] then none else parse_int_lead part))

/-- The checker's inline bucket scan (`main` of `example_checker.py`): the
same search as `find_equal_pair`, except that on a hit the pair is reported
as `(prev, combo)` — earlier-bucketed subset first. -/
def checkerScanAux (values : List Int) :
    List (List ℕ) → (Int → List (List ℕ)) → Option (List ℕ × List ℕ)
  | [], _ => none
  | combo :: rest, sumToCombos =>
    match (sumToCombos (sumAt values combo)).find?
        (fun prev => disjointB prev combo) with
    | some prev => some (prev, combo)
    | none =>
        checkerScanAux values rest
          (fun s => if s = sumAt values combo then sumToCombos s ++ [combo]
                    else sumToCombos s)

/-- The checker's search over the parsed values. -/
def checker_find (values : List Int) : Option (List ℕ × List ℕ) :=
  checkerScanAux values (combosList (List.range values.length) 5) (fun _ => [])

/-- Terminal outcome of the checker CLI's `main`. -/
inductive CheckerOutcome where
  | usageError
  | insufficientValues (values : List Int)
  | found (values : List Int) (result : Option (List ℕ × List ℕ))
deriving DecidableEq

/-- Control flow of `main` in `example_checker.py`, on the user-supplied
arguments `sys.argv[1:]`: no argument at all is a usage error; fewer than 10
parsed values is the insufficient-input error; otherwise the scan runs on
the parsed values. -/
def checker_main (args : List (List Char)) : CheckerOutcome :=
  if args = [] then .usageError
  else if (parse_values args).length < 10 then .insufficientValues (parse_values args)
  else .found (parse_values args) (checker_find (parse_values args))

/-- Process exit status of each outcome (`sys.exit(1)` on the two error
paths, normal termination otherwise). -/
def exit_code : CheckerOutcome → ℕ
  | .usageError => 1
  | .insufficientValues _ => 1
  | .found _ _ => 0

/-! ### Claim C8: insufficient input -/

/-- C8: invoked with at least one argument but fewer than 10 parsed integer
values, the checker reports the insufficient-input error and exits with
status 1; the outcome carries no search result — the scan is never run. -/
theorem C8_insufficient_values (args : List (List Char)) (hargs : args ≠ [])
    (hlen : (parse_values args).length < 10) :
    checker_main args = CheckerOutcome.insufficientValues (parse_values args) ∧
      exit_code (checker_main args) = 1 := by
  have h : checker_main args = CheckerOutcome.insufficientValues (parse_values args) := by
    rw [checker_main, if_neg hargs, if_pos hlen]
  exact ⟨h, by rw [h, exit_code]⟩

theorem C8_witness :
    ([['1', ',', '2', ',', '3']] : List (List Char)) ≠ [] ∧
      (parse_values [['1', ',', '2', ',', '3']]).length < 10 ∧
      checker_main [['1', ',', '2', ',', '3']] =
        CheckerOutcome.insufficientValues (parse_values [['1', ',', '2', ',', '3']]) ∧
      exit_code (checker_main [['1', ',', '2', ',', '3']]) = 1 := by
  have h := C8_insufficient_values [['1', ',', '2', ',', '3']] (by decide) (by decide)
  exact ⟨by decide, by decide, h.1, h.2⟩

/-! ### Claim C10: no range validation -/

/-- C10: the checker validates no range — every stripped token whose leading
prefix is an optional-sign integer contributes exactly that integer (zero,
negative and above-100 values included) to the value list, and when at least
10 values were parsed the scan runs on this list unchanged. -/
theorem C10_no_range_validation (args : List (List Char)) (tok : List Char)
    (v : Int)
    (ht : tok ∈ args.flatMap (fun arg => (splitOnComma arg).map stripChars))
    (hv : parse_int_lead tok = some v) (hargs : args ≠ [])
    (hlen : 10 ≤ (parse_values args).length) :
    v ∈ parse_values args ∧
      checker_main args =
        CheckerOutcome.found (parse_values args)
          (checker_find (parse_values args)) := by
  constructor
  · rw [parse_values, List.mem_flatMap]
    rw [List.mem_flatMap] at ht
    obtain ⟨arg, harg, htok⟩ := ht
    refine ⟨arg, harg, ?_⟩
    rw [List.mem_filterMap]
    refine ⟨tok, htok, ?_⟩
    have hne : tok ≠ [] := by
      intro h0
      rw [h0] at hv
      simp [parse_int_lead] at hv
    rw [if_neg hne]
    exact hv
  · rw [checker_main, if_neg hargs, if_neg (by omega)]

theorem C10_witness :
    ((-5 : Int)) ∈ parse_values [['0'], ['-', '5', ','], [' ', '1', '0', '1'],
        ['4', 'a', 'b', 'c'], ['x', '9'], ['6'], ['7'], ['8'], ['9'],
        ['1', '0'], ['1', '1']] ∧
      checker_main [['0'], ['-', '5', ','], [' ', '1', '0', '1'],
          ['4', 'a', 'b', 'c'], ['x', '9'], ['6'], ['7'], ['8'], ['9'],
          ['1', '0'], ['1', '1']] =
        CheckerOutcome.found
          (parse_values [['0'], ['-', '5', ','], [' ', '1', '0', '1'],
            ['4', 'a', 'b', 'c'], ['x', '9'], ['6'], ['7'], ['8'], ['9'],
            ['1', '0'], ['1', '1']])
          (checker_find (parse_values [['0'], ['-', '5', ','],
            [' ', '1', '0', '1'], ['4', 'a', 'b', 'c'], ['x', '9'], ['6'],
            ['7'], ['8'], ['9'], ['1', '0'], ['1', '1']])) :=
  C10_no_range_validation _ ['-', '5'] (-5) (by decide) (by decide) (by decide)
    (by decide)

/-! ### The CP-SAT base model (`setup_base_model`), projected to scores -/

/-- Number of occurrences of the value `v` among the scores. -/
def countVal (score : List Int) (v : Int) : ℕ :=
  (score.filter (fun x => x == v)).length

/-- Total number of duplicate pairs: for each value `v ∈ [1,100]` the model's
constraints `2*pair_v ≤ count_v` and `count_v ≤ 2*pair_v + 1` pin the
variable `pair_v` to `⌊count_v/2⌋`; this is the sum of those forced values. -/
def dupPairs (score : List Int) : ℕ :=
  ((List.range 100).map (fun k => countVal score (((k : ℕ) : Int) + 1) / 2)).sum

/-- Non-decreasing order of consecutive scores (`score[i] <= score[i+1]`). -/
def nondecreasingB : List Int → Bool
  | [] => true
  | [_] => true
  | a :: b :: t => decide (a ≤ b) && nondecreasingB (b :: t)

/-- `setup_base_model(N)` projected onto the score variables: a list
satisfies the base model's constraints iff it has length `N`, all values in
`[1,100]`, first value `1`, non-decreasing order, no 10 identical values in a
row (`score[i] != score[i+9]`) and at most 4 duplicate pairs overall.  The
auxiliary `is_{v}_{i}` booleans and `pairs_v` variables of the CP model are
uniquely determined by the scores (fully reified equalities and the floored
division), so this projection loses nothing. -/
def satisfiesBase (N : ℕ) (score : List Int) : Bool :=
  (score.length == N) &&
  score.all (fun x => decide (1 ≤ x) && decide (x ≤ 100)) &&
  (score.headD 0 == 1) &&
  nondecreasingB score &&
  (List.range (N - 9)).all (fun i => !(score.getD i 0 == score.getD (i + 9) 0)) &&
  decide (dupPairs score ≤ 4)

/-- A blocking clause: a pair of index subsets whose sums the refined model
must keep apart. -/
abbrev Block := List ℕ × List ℕ

/-- The constraint problem handed to the solver in a CEGAR iteration: the
base model for `N` plus one `sum(T) != sum(U)` constraint per accumulated
blocking clause. -/
def satisfiesProblem (N : ℕ) (blocks : List Block) (score : List Int) : Bool :=
  satisfiesBase N score &&
  blocks.all (fun p => !(sumAt score p.1 == sumAt score p.2))

/-- Answers of the external CP-SAT solver: `INFEASIBLE`, a feasible
assignment, or neither (status reported when the time limit is reached). -/
inductive SolveResult where
  | unsat
  | sat (assignment : List Int)
  | unknown
deriving DecidableEq

/-- Terminal states of one proof attempt: the `True` return (UNSAT), the
`False` return with the counter-example printed, or the raised
`TimeoutError`. -/
inductive ProveResult where
  | proven
  | disproven (sol : List Int)
  | timedOut
deriving DecidableEq

/-- The PROVEN/DISPROVEN verdict as a boolean; `none` for a timeout. -/
def resultBool : ProveResult → Option Bool
  | .proven => some true
  | .disproven _ => some false
  | .timedOut => none

/-- The constraint pairs built by `prove_static`'s double loop: `(T_i, T_j)`
for `i < j` with disjoint index sets, in loop order. -/
def staticPairsAux : List (List ℕ) → List Block
  | [] => []
  | T :: rest => ((rest.filter (fun U => disjointB T U)).map (fun U => (T, U)))
      ++ staticPairsAux rest

/-- All disjoint-pair constraints of the static model for `N`. -/
def static_pairs (N : ℕ) : List Block :=
  staticPairsAux (get_5_subsets N)

/-- `prove_static(N, ...)` with the solver abstracted: build the base model
plus every disjoint-pair constraint up front and make a single oracle call. -/
def prove_static (oracle : List Block → SolveResult) (N : ℕ) : ProveResult :=
  match oracle (static_pairs N) with
  | .unsat => .proven
  | .sat a => .disproven a
  | .unknown => .timedOut

/-- The refinement loop of `prove_with_cegar`, with the solver abstracted
(one oracle call solves the base model plus the given blocking clauses) and a
fuel parameter standing for the iteration count: `none` means the fuel ran
out before the loop terminated (the termination theorems below show that
enough fuel always exists). -/
def cegarLoop (oracle : List Block → SolveResult) : ℕ → List Block → Option ProveResult
  | 0, _ => none
  | fuel + 1, blocks =>
    match oracle blocks with
    | .unsat => some .proven
    | .sat a =>
      match find_equal_pair a with
      | none => some (.disproven a)
      | some p => cegarLoop oracle fuel (blocks ++ [p])
    | .unknown => some .timedOut

/-- `prove_with_cegar(N, ...)` with the solver abstracted: run the refinement
loop from an empty blocking list. -/
def prove_with_cegar (oracle : List Block → SolveResult) (fuel : ℕ) :
    Option ProveResult :=
  cegarLoop oracle fuel []

/-- All pairs `(T, U)` with `U` occurring strictly before `T` in the
enumeration of 5-subsets of `range N` and disjoint from it — the finite set
of blocking clauses the finder can ever produce for length-`N` sequences (one
ordered pair per unordered disjoint pair). -/
def orientedPairsAux : List (List ℕ) → List (List ℕ) → List Block
  | _, [] => []
  | seen, T :: rest =>
    ((seen.filter (fun U => disjointB T U)).map (fun U => (T, U)))
      ++ orientedPairsAux (seen ++ [T]) rest

/-- The disjoint 5-subset pairs of `{0..N-1}`, oriented later-first. -/
def orientedPairs (N : ℕ) : List Block :=
  orientedPairsAux [] (get_5_subsets N)

lemma mem_orientedPairsAux :
    ∀ (l seen : List (List ℕ)) (T U : List ℕ),
      (T, U) ∈ orientedPairsAux seen l ↔
        ∃ pre post, l = pre ++ T :: post ∧ U ∈ seen ++ pre ∧
          disjointB T U = true := by
  intro l
  induction l with
  | nil =>
    intro seen T U
    simp only [orientedPairsAux, List.not_mem_nil, false_iff]
    rintro ⟨pre, post, h, -, -⟩
    cases pre <;> simp at h
  | cons X rest ih =>
    intro seen T U
    simp only [orientedPairsAux, List.mem_append, List.mem_map, List.mem_filter,
      Prod.mk.injEq]
    constructor
    · rintro (⟨U', ⟨hU', hdisj⟩, rfl, rfl⟩ | h)
      · exact ⟨[], rest, rfl, by simpa using hU', hdisj⟩
      · obtain ⟨pre, post, hl, hmem, hdisj⟩ := (ih (seen ++ [X]) T U).1 h
        refine ⟨X :: pre, post, by rw [hl]; rfl, ?_, hdisj⟩
        simp only [List.mem_append, List.mem_cons, List.mem_singleton] at hmem ⊢
        tauto
    · rintro ⟨pre, post, hl, hmem, hdisj⟩
      cases pre with
      | nil =>
        simp only [List.nil_append, List.cons.injEq] at hl
        obtain ⟨rfl, rfl⟩ := hl
        exact Or.inl ⟨U, ⟨by simpa using hmem, hdisj⟩, rfl, rfl⟩
      | cons Y pre' =>
        simp only [List.cons_append, List.cons.injEq] at hl
        obtain ⟨rfl, hl'⟩ := hl
        refine Or.inr ((ih (seen ++ [X]) T U).2 ⟨pre', post, hl', ?_, hdisj⟩)
        simp only [List.mem_append, List.mem_cons, List.mem_singleton] at hmem ⊢
        tauto

lemma mem_orientedPairs {N : ℕ} {T U : List ℕ} :
    (T, U) ∈ orientedPairs N ↔
      ∃ pre post, get_5_subsets N = pre ++ T :: post ∧ U ∈ pre ∧
        disjointB T U = true := by
  rw [orientedPairs, mem_orientedPairsAux]
  simp

lemma mem_staticPairsAux :
    ∀ (l : List (List ℕ)) (T U : List ℕ),
      (T, U) ∈ staticPairsAux l ↔
        ∃ pre post, l = pre ++ T :: post ∧ U ∈ post ∧ disjointB T U = true := by
  intro l
  induction l with
  | nil =>
    intro T U
    simp only [staticPairsAux, List.not_mem_nil, false_iff]
    rintro ⟨pre, post, h, -, -⟩
    cases pre <;> simp at h
  | cons X rest ih =>
    intro T U
    simp only [staticPairsAux, List.mem_append, List.mem_map, List.mem_filter,
      Prod.mk.injEq]
    constructor
    · rintro (⟨U', ⟨hU', hdisj⟩, rfl, rfl⟩ | h)
      · exact ⟨[], rest, rfl, hU', hdisj⟩
      · obtain ⟨pre, post, hl, hmem, hdisj⟩ := (ih T U).1 h
        exact ⟨X :: pre, post, by rw [hl]; rfl, hmem, hdisj⟩
    · rintro ⟨pre, post, hl, hmem, hdisj⟩
      cases pre with
      | nil =>
        simp only [List.nil_append, List.cons.injEq] at hl
        obtain ⟨rfl, rfl⟩ := hl
        exact Or.inl ⟨U, ⟨hmem, hdisj⟩, rfl, rfl⟩
      | cons Y pre' =>
        simp only [List.cons_append, List.cons.injEq] at hl
        obtain ⟨rfl, hl'⟩ := hl
        exact Or.inr ((ih T U).2 ⟨pre', post, hl', hmem, hdisj⟩)

lemma mem_static_pairs {N : ℕ} {T U : List ℕ} :
    (T, U) ∈ static_pairs N ↔
      ∃ pre post, get_5_subsets N = pre ++ T :: post ∧ U ∈ post ∧
        disjointB T U = true :=
  mem_staticPairsAux _ _ _

/-! ### The solver contract and basic consequences -/

/-- Well-formed blocking lists: each pair is two enumerated 5-subsets with
disjoint index sets (every list the refinement loop hands the oracle is of
this shape). -/
def blocksWF (N : ℕ) (blocks : List Block) : Prop :=
  ∀ p ∈ blocks, p.1 ∈ get_5_subsets N ∧ p.2 ∈ get_5_subsets N ∧
    disjointB p.1 p.2 = true

/-- The solver contract under an unlimited time budget: `INFEASIBLE` only for
unsatisfiable problems, a feasible answer only with an assignment satisfying
every constraint of the handed problem, and no timeout. -/
def oracleCorrect (N : ℕ) (blocks : List Block) : SolveResult → Prop
  | .unsat => ∀ a, satisfiesProblem N blocks a = false
  | .sat a => satisfiesProblem N blocks a = true
  | .unknown => False

lemma satisfiesProblem_iff {N : ℕ} {blocks : List Block} {a : List Int} :
    satisfiesProblem N blocks a = true ↔
      satisfiesBase N a = true ∧ ∀ p ∈ blocks, sumAt a p.1 ≠ sumAt a p.2 := by
  simp [satisfiesProblem, List.all_eq_true]

lemma satisfiesBase_length {N : ℕ} {a : List Int} (h : satisfiesBase N a = true) :
    a.length = N := by
  simp only [satisfiesBase, Bool.and_eq_true, beq_iff_eq] at h
  exact h.1.1.1.1.1

/-- Packaged success facts of `find_equal_pair`: the enumeration split, with
the partner `U` strictly earlier, disjoint, and of equal sum. -/
lemma find_equal_pair_some_split {V : List Int} {T U : List ℕ}
    (h : find_equal_pair V = some (T, U)) :
    ∃ pre post, get_5_subsets V.length = pre ++ T :: post ∧ U ∈ pre ∧
      disjointB T U = true ∧ sumAt V U = sumAt V T := by
  obtain ⟨pre, post, hsplit, hfound, -⟩ := find_equal_pair_some_spec h
  have hmem := mem_bucketFn.1 (List.mem_of_find?_eq_some hfound)
  exact ⟨pre, post, hsplit, hmem.1, List.find?_some hfound, hmem.2⟩

/-- A refinement step produces a pair that is fresh (its sums agree on the
assignment, so no blocking clause of the handed problem equals it) and lies
in the finite oriented-pair enumeration. -/
lemma refine_step {N : ℕ} {blocks : List Block} {a : List Int} {p : Block}
    (ha : satisfiesProblem N blocks a = true) (hp : find_equal_pair a = some p) :
    p ∉ blocks ∧ p ∈ orientedPairs N := by
  obtain ⟨T, U⟩ := p
  obtain ⟨hbase, hblocks⟩ := satisfiesProblem_iff.1 ha
  obtain ⟨pre, post, hsplit, hUpre, hdisj, hsum⟩ := find_equal_pair_some_split hp
  rw [satisfiesBase_length hbase] at hsplit
  constructor
  · intro hmem
    exact hblocks _ hmem hsum.symm
  · exact mem_orientedPairs.2 ⟨pre, post, hsplit, hUpre, hdisj⟩

lemma orientedPairs_wf {N : ℕ} {p : Block} (h : p ∈ orientedPairs N) :
    p.1 ∈ get_5_subsets N ∧ p.2 ∈ get_5_subsets N ∧ disjointB p.1 p.2 = true := by
  obtain ⟨T, U⟩ := p
  obtain ⟨pre, post, hsplit, hUpre, hdisj⟩ := mem_orientedPairs.1 h
  refine ⟨?_, ?_, hdisj⟩
  · rw [hsplit]; exact List.mem_append_right _ (List.mem_cons_self _ _)
  · rw [hsplit]; exact List.mem_append_left _ hUpre

lemma static_pairs_wf {N : ℕ} : blocksWF N (static_pairs N) := by
  intro p hp
  obtain ⟨T, U⟩ := p
  obtain ⟨pre, post, hsplit, hUpost, hdisj⟩ := mem_static_pairs.1 hp
  refine ⟨?_, ?_, hdisj⟩
  · rw [hsplit]; exact List.mem_append_right _ (List.mem_cons_self _ _)
  · rw [hsplit]; exact List.mem_append_right _ (List.mem_cons_of_mem _ hUpost)

lemma nodup_snoc {α : Type*} {l : List α} {x : α} (h : l.Nodup) (hx : x ∉ l) :
    (l ++ [x]).Nodup := by
  rw [List.nodup_append]
  exact ⟨h, List.nodup_singleton x,
    fun b hb hb' => hx (by rwa [List.mem_singleton.1 hb'] at hb)⟩

lemma length_le_of_nodup_subset {α : Type*} [DecidableEq α] {l S : List α}
    (hnd : l.Nodup) (hsub : ∀ x ∈ l, x ∈ S) : l.length ≤ S.length :=
  calc l.length = l.toFinset.card := (List.toFinset_card_of_nodup hnd).symm
    _ ≤ S.toFinset.card := Finset.card_le_card
        (fun x hx => List.mem_toFinset.2 (hsub x (List.mem_toFinset.1 hx)))
    _ ≤ S.length := S.toFinset_card_le

/-- An assignment on which the finder reports no pair satisfies every static
disjoint-pair constraint. -/
lemma static_sat_of_find_none {N : ℕ} {a : List Int}
    (hlen : a.length = N) (hnone : find_equal_pair a = none) :
    ∀ p ∈ static_pairs N, sumAt a p.1 ≠ sumAt a p.2 := by
  intro p hp
  obtain ⟨T, U⟩ := p
  obtain ⟨pre, post, hsplit, hUpost, hdisj⟩ := mem_static_pairs.1 hp
  have hpw := find_equal_pair_none_pairwise hnone
  rw [hlen] at hpw
  have hsub : [T, U].Sublist (get_5_subsets N) := by
    rw [hsplit]
    exact ((List.singleton_sublist.2 hUpost).cons₂ T).trans
      (List.sublist_append_right pre (T :: post))
  intro hsum
  have hfalse := (List.pairwise_cons.1 (List.Pairwise.sublist hsub hpw)).1 U
    (by simp) hsum
  rw [disjointB_symm hdisj] at hfalse
  simp at hfalse

/-- An assignment satisfying every static pair constraint satisfies every
blocking-clause constraint drawn from the oriented pairs. -/
lemma blocks_sat_of_static_sat {N : ℕ} {a : List Int}
    (hstat : ∀ p ∈ static_pairs N, sumAt a p.1 ≠ sumAt a p.2)
    {blocks : List Block} (hor : ∀ p ∈ blocks, p ∈ orientedPairs N) :
    ∀ p ∈ blocks, sumAt a p.1 ≠ sumAt a p.2 := by
  intro p hp
  obtain ⟨T, U⟩ := p
  obtain ⟨pre, post, hsplit, hUpre, hdisj⟩ := mem_orientedPairs.1 (hor _ hp)
  obtain ⟨s, t, rfl⟩ := List.append_of_mem hUpre
  have hUT : (U, T) ∈ static_pairs N := by
    refine mem_static_pairs.2
      ⟨s, t ++ T :: post, by rw [hsplit]; simp, ?_, disjointB_symm hdisj⟩
    exact List.mem_append_right _ (List.mem_cons_self _ _)
  intro hsum
  exact hstat _ hUT hsum.symm

/-! ### Behaviour of the refinement loop -/

/-- When the full static problem is unsatisfiable, the refinement loop — run
on any reachable state with enough fuel — ends in `proven`. -/
lemma cegarLoop_proven {N : ℕ} {oracle : List Block → SolveResult}
    (hOracle : ∀ blocks, blocksWF N blocks → oracleCorrect N blocks (oracle blocks))
    (hU : ∀ a, satisfiesProblem N (static_pairs N) a = false) :
    ∀ fuel blocks, blocks.Nodup → (∀ p ∈ blocks, p ∈ orientedPairs N) →
      (orientedPairs N).length < fuel + blocks.length →
      cegarLoop oracle fuel blocks = some ProveResult.proven := by
  intro fuel
  induction fuel with
  | zero =>
    intro blocks hnd hsub hlt
    have := length_le_of_nodup_subset hnd hsub
    omega
  | succ fuel ih =>
    intro blocks hnd hsub hlt
    have hcor := hOracle blocks (fun p hp => orientedPairs_wf (hsub p hp))
    cases hq : oracle blocks with
    | unsat => simp [cegarLoop, hq]
    | sat a =>
      rw [hq] at hcor
      cases hf : find_equal_pair a with
      | none =>
        exfalso
        have hbase := (satisfiesProblem_iff.1 hcor).1
        have hstat : satisfiesProblem N (static_pairs N) a = true :=
          satisfiesProblem_iff.2
            ⟨hbase, static_sat_of_find_none (satisfiesBase_length hbase) hf⟩
        rw [hU a] at hstat
        exact Bool.false_ne_true hstat
      | some p =>
        obtain ⟨hnew, hor⟩ := refine_step hcor hf
        have hrec := ih (blocks ++ [p]) (nodup_snoc hnd hnew)
          (fun q hq' => (List.mem_append.1 hq').elim (hsub q)
            (fun hq'' => (List.mem_singleton.1 hq'') ▸ hor))
          (by simp only [List.length_append, List.length_singleton]; omega)
        simp [cegarLoop, hq, hf, hrec]
    | unknown =>
      rw [hq] at hcor
      exact hcor.elim

/-- When the full static problem is satisfiable, the refinement loop — run on
any reachable state with enough fuel — ends in `disproven`. -/
lemma cegarLoop_disproven {N : ℕ} {oracle : List Block → SolveResult}
    (hOracle : ∀ blocks, blocksWF N blocks → oracleCorrect N blocks (oracle blocks))
    {aF : List Int} (hF : satisfiesProblem N (static_pairs N) aF = true) :
    ∀ fuel blocks, blocks.Nodup → (∀ p ∈ blocks, p ∈ orientedPairs N) →
      (orientedPairs N).length < fuel + blocks.length →
      ∃ a, cegarLoop oracle fuel blocks = some (ProveResult.disproven a) := by
  intro fuel
  induction fuel with
  | zero =>
    intro blocks hnd hsub hlt
    have := length_le_of_nodup_subset hnd hsub
    omega
  | succ fuel ih =>
    intro blocks hnd hsub hlt
    have hcor := hOracle blocks (fun p hp => orientedPairs_wf (hsub p hp))
    cases hq : oracle blocks with
    | unsat =>
      exfalso
      rw [hq] at hcor
      have hsat' : satisfiesProblem N blocks aF = true := by
        obtain ⟨hbase, hstat⟩ := satisfiesProblem_iff.1 hF
        exact satisfiesProblem_iff.2 ⟨hbase, blocks_sat_of_static_sat hstat hsub⟩
      rw [hcor aF] at hsat'
      exact Bool.false_ne_true hsat'
    | sat a =>
      rw [hq] at hcor
      cases hf : find_equal_pair a with
      | none => exact ⟨a, by simp [cegarLoop, hq, hf]⟩
      | some p =>
        obtain ⟨hnew, hor⟩ := refine_step hcor hf
        obtain ⟨b, hb⟩ := ih (blocks ++ [p]) (nodup_snoc hnd hnew)
          (fun q hq' => (List.mem_append.1 hq').elim (hsub q)
            (fun hq'' => (List.mem_singleton.1 hq'') ▸ hor))
          (by simp only [List.length_append, List.length_singleton]; omega)
        exact ⟨b, by simp [cegarLoop, hq, hf, hb]⟩
    | unknown =>
      rw [hq] at hcor
      exact hcor.elim

/-- With an oracle whose feasible answers satisfy the handed problem, the
refinement loop always terminates within the oriented-pair bound, whatever
the oracle's other answers are. -/
lemma cegarLoop_isSome {N : ℕ} {oracle : List Block → SolveResult}
    (hsat : ∀ blocks a, oracle blocks = SolveResult.sat a →
      satisfiesProblem N blocks a = true) :
    ∀ fuel blocks, blocks.Nodup → (∀ p ∈ blocks, p ∈ orientedPairs N) →
      (orientedPairs N).length < fuel + blocks.length →
      (cegarLoop oracle fuel blocks).isSome = true := by
  intro fuel
  induction fuel with
  | zero =>
    intro blocks hnd hsub hlt
    have := length_le_of_nodup_subset hnd hsub
    omega
  | succ fuel ih =>
    intro blocks hnd hsub hlt
    cases hq : oracle blocks with
    | unsat => simp [cegarLoop, hq]
    | sat a =>
      cases hf : find_equal_pair a with
      | none => simp [cegarLoop, hq, hf]
      | some p =>
        obtain ⟨hnew, hor⟩ := refine_step (hsat blocks a hq) hf
        have hrec := ih (blocks ++ [p]) (nodup_snoc hnd hnew)
          (fun q hq' => (List.mem_append.1 hq').elim (hsub q)
            (fun hq'' => (List.mem_singleton.1 hq'') ▸ hor))
          (by simp only [List.length_append, List.length_singleton]; omega)
        simp [cegarLoop, hq, hf, hrec]
    | unknown => simp [cegarLoop, hq]

/-! ### Claim C3: CEGAR and static drivers agree -/

/-- C3: for `N ≥ 5` and a solver oracle honouring the unlimited-budget
contract, the CEGAR driver (with fuel beyond the finite refinement bound) and
the static driver reach the same PROVEN/DISPROVEN verdict. -/
theorem C3_cegar_static_agree (oracle : List Block → SolveResult) (N : ℕ)
    (h5 : 5 ≤ N)
    (hOracle : ∀ blocks, blocksWF N blocks → oracleCorrect N blocks (oracle blocks))
    (fuel : ℕ) (hfuel : (orientedPairs N).length < fuel) :
    ∃ r, prove_with_cegar oracle fuel = some r ∧
      resultBool r = resultBool (prove_static oracle N) ∧
      (resultBool r).isSome = true := by
  have hcor := hOracle (static_pairs N) static_pairs_wf
  cases hq : oracle (static_pairs N) with
  | unsat =>
    rw [hq] at hcor
    refine ⟨ProveResult.proven, ?_, ?_, rfl⟩
    · exact cegarLoop_proven hOracle hcor fuel [] (by simp) (by simp)
        (by simpa using hfuel)
    · rw [prove_static, hq]
  | sat aF =>
    rw [hq] at hcor
    obtain ⟨a, ha⟩ := cegarLoop_disproven hOracle hcor fuel [] (by simp) (by simp)
      (by simpa using hfuel)
    refine ⟨ProveResult.disproven a, ha, ?_, rfl⟩
    rw [prove_static, hq]
    rfl
  | unknown =>
    rw [hq] at hcor
    exact hcor.elim

theorem C3_witness :
    ∃ r, prove_with_cegar (fun _ => SolveResult.sat [1, 2, 3, 4, 5])
          ((orientedPairs 5).length + 1) = some r ∧
        resultBool r =
          resultBool (prove_static (fun _ => SolveResult.sat [1, 2, 3, 4, 5]) 5) ∧
        (resultBool r).isSome = true := by
  refine C3_cegar_static_agree _ 5 (by norm_num) ?_ _ (Nat.lt_succ_self _)
  intro blocks hwf
  show satisfiesProblem 5 blocks [1, 2, 3, 4, 5] = true
  refine satisfiesProblem_iff.2 ⟨by decide, ?_⟩
  intro p hp
  obtain ⟨h1, h2, h3⟩ := hwf p hp
  have h5 : get_5_subsets 5 = [[0, 1, 2, 3, 4]] := by decide
  rw [h5, List.mem_singleton] at h1 h2
  rw [h1, h2] at h3
  exact absurd h3 (by decide)

/-! ### Claim C5: refinement progress and termination -/

/-- C5: with an oracle that only ever returns assignments satisfying the
handed problem's constraints, every refinement step appends a blocking pair
not previously on the list, and the loop terminates once the fuel exceeds the
number of disjoint 5-subset pairs of `{0..N-1}`. -/
theorem C5_termination (oracle : List Block → SolveResult) (N : ℕ)
    (hsat : ∀ blocks a, oracle blocks = SolveResult.sat a →
      satisfiesProblem N blocks a = true) :
    (∀ blocks a p, oracle blocks = SolveResult.sat a →
        find_equal_pair a = some p → p ∉ blocks) ∧
      ∀ fuel, (orientedPairs N).length < fuel →
        (prove_with_cegar oracle fuel).isSome = true := by
  refine ⟨?_, ?_⟩
  · intro blocks a p hq hp
    exact (refine_step (hsat blocks a hq) hp).1
  · intro fuel hfuel
    exact cegarLoop_isSome hsat fuel [] (by simp) (by simp) (by simpa using hfuel)

/-- A concrete oracle for the witnesses below: on the empty blocking list it
answers with a feasible length-10 assignment whose values are all distinct
except for none (so the base model holds) yet which contains a disjoint
equal-sum pair; afterwards it answers `INFEASIBLE`. -/
def oracleW : List Block → SolveResult := fun blocks =>
  if blocks = [] then SolveResult.sat [1, 2, 3, 4, 5, 6, 7, 8, 9, 11]
  else SolveResult.unsat

lemma oracleW_hsat : ∀ blocks a, oracleW blocks = SolveResult.sat a →
    satisfiesProblem 10 blocks a = true := by
  intro blocks a h
  rw [oracleW] at h
  by_cases hb : blocks = []
  · rw [if_pos hb] at h
    injection h with h'
    subst hb
    rw [← h']
    decide
  · rw [if_neg hb] at h
    exact absurd h (by simp)

theorem C5_witness :
    ((orientedPairs 10).length < (orientedPairs 10).length + 1) ∧
      (prove_with_cegar oracleW ((orientedPairs 10).length + 1)).isSome = true :=
  ⟨Nat.lt_succ_self _,
    (C5_termination oracleW 10 oracleW_hsat).2 _ (Nat.lt_succ_self _)⟩

/-! ### Claim C6: the blocking list only grows and never repeats -/

/-- The value of `block_clauses` at the start of iteration `k` of the
refinement loop (it stabilises once the loop has terminated: a terminal
answer leaves the list unchanged). -/
def cegarBlocksAt (oracle : List Block → SolveResult) : ℕ → List Block
  | 0 => []
  | k + 1 =>
    match oracle (cegarBlocksAt oracle k) with
    | .sat a =>
      match find_equal_pair a with
      | some p => cegarBlocksAt oracle k ++ [p]
      | none => cegarBlocksAt oracle k
    | _ => cegarBlocksAt oracle k

/-- C6: across every run with an oracle whose feasible answers satisfy the
handed problem, the blocking list at any earlier iteration is a prefix of the
list at any later iteration (elements are only appended, never removed), and
the list never contains the same pair twice. -/
theorem C6_blocks_monotone (oracle : List Block → SolveResult) (N : ℕ)
    (hsat : ∀ blocks a, oracle blocks = SolveResult.sat a →
      satisfiesProblem N blocks a = true) :
    (∀ k m, k ≤ m → cegarBlocksAt oracle k <+: cegarBlocksAt oracle m) ∧
      ∀ k, (cegarBlocksAt oracle k).Nodup := by
  have hstep : ∀ k, cegarBlocksAt oracle k <+: cegarBlocksAt oracle (k + 1) := by
    intro k
    cases hq : oracle (cegarBlocksAt oracle k) with
    | sat a =>
      cases hf : find_equal_pair a with
      | some p => simp [cegarBlocksAt, hq, hf]
      | none => simp [cegarBlocksAt, hq, hf]
    | unsat => simp [cegarBlocksAt, hq]
    | unknown => simp [cegarBlocksAt, hq]
  refine ⟨?_, ?_⟩
  · intro k m hkm
    induction m with
    | zero =>
      rw [Nat.le_zero.1 hkm]
    | succ m ihm =>
      rcases Nat.lt_or_ge k (m + 1) with hlt | hge
      · exact (ihm (Nat.lt_succ_iff.1 hlt)).trans (hstep m)
      · rw [Nat.le_antisymm hkm hge]
  · intro k
    induction k with
    | zero => simp [cegarBlocksAt]
    | succ k ihk =>
      cases hq : oracle (cegarBlocksAt oracle k) with
      | sat a =>
        cases hf : find_equal_pair a with
        | some p =>
          have hfresh := (refine_step (hsat _ _ hq) hf).1
          simp only [cegarBlocksAt, hq, hf]
          exact nodup_snoc ihk hfresh
        | none => simpa only [cegarBlocksAt, hq, hf] using ihk
      | unsat => simpa only [cegarBlocksAt, hq] using ihk
      | unknown => simpa only [cegarBlocksAt, hq] using ihk

theorem C6_witness :
    cegarBlocksAt oracleW 0 <+: cegarBlocksAt oracleW 2 ∧
      (cegarBlocksAt oracleW 2).Nodup :=
  ⟨(C6_blocks_monotone oracleW 10 oracleW_hsat).1 0 2 (by norm_num),
    (C6_blocks_monotone oracleW 10 oracleW_hsat).2 2⟩

/-! ### Claim C4: the time-budget handling of a CEGAR iteration -/

/-- Result of one pass of the `while` body of `prove_with_cegar`: a terminal
state, or the refined blocking list to continue with. -/
inductive IterStep where
  | proven
  | disproven (sol : List Int)
  | timedOut
  | refine (blocks : List Block)
deriving DecidableEq

/-- One pass of the CEGAR loop body with its wall-clock bookkeeping:
`elapsed` models `perf_counter() - t0` at the top of the pass, the budget
handed to the solver is `max(0.0, wallclock_limit - elapsed)` and the solver
is then invoked unconditionally; the second component records the budgets of
the oracle invocations made during the pass.  An answer that is neither
INFEASIBLE nor FEASIBLE/OPTIMAL raises `TimeoutError`. -/
def cegar_iteration (oracle : List Block → ℚ → SolveResult) (blocks : List Block)
    (limit elapsed : ℚ) : IterStep × List ℚ :=
  (match oracle blocks (max 0 (limit - elapsed)) with
   | .unsat => IterStep.proven
   | .sat a =>
     match find_equal_pair a with
     | none => IterStep.disproven a
     | some p => IterStep.refine (blocks ++ [p])
   | .unknown => IterStep.timedOut,
   [max 0 (limit - elapsed)])

/-- C4 counterexample: with the remaining budget already expired (limit 1,
elapsed 2) and a solver that answers INFEASIBLE even on a zero budget, the
iteration still invokes the oracle — one invocation, with the budget clamped
to 0 — and terminates PROVEN, not TIMEOUT-without-invocation as claimed. -/
theorem C4_counterexample :
    (1 : ℚ) - 2 ≤ 0 ∧
      cegar_iteration (fun _ _ => SolveResult.unsat) [] 1 2 =
        (IterStep.proven, [0]) ∧
      (IterStep.proven, ([0] : List ℚ)) ≠ (IterStep.timedOut, ([] : List ℚ)) := by
  have hm : max (0 : ℚ) (1 - 2) = 0 := max_eq_left (by norm_num)
  refine ⟨by norm_num, ?_, by simp⟩
  rw [cegar_iteration, hm]

/-- C4 (amended): when the computed remaining budget is ≤ 0, the iteration
still invokes the oracle — exactly once, with the budget clamped to 0 by
`max(0.0, ...)`, so the oracle is never handed a negative budget — and the
attempt terminates with TIMEOUT precisely when that zero-budget invocation
reports neither UNSAT nor a feasible assignment. -/
theorem C4_zero_budget (oracle : List Block → ℚ → SolveResult)
    (blocks : List Block) (limit elapsed : ℚ) (h : limit - elapsed ≤ 0) :
    (cegar_iteration oracle blocks limit elapsed).2 = [0] ∧
      ((cegar_iteration oracle blocks limit elapsed).1 = IterStep.timedOut ↔
        oracle blocks 0 = SolveResult.unknown) := by
  have hm : max (0 : ℚ) (limit - elapsed) = 0 := max_eq_left h
  rw [cegar_iteration, hm]
  refine ⟨rfl, ?_⟩
  cases hq : oracle blocks 0 with
  | unsat => simp [hq]
  | sat a =>
    cases hf : find_equal_pair a with
    | none => simp [hq, hf]
    | some p => simp [hq, hf]
  | unknown => simp [hq]

theorem C4_witness :
    ((1 : ℚ) - 2 ≤ 0) ∧
      (cegar_iteration (fun _ _ => SolveResult.unknown) [] 1 2).2 = [0] ∧
      ((cegar_iteration (fun _ _ => SolveResult.unknown) [] 1 2).1 =
          IterStep.timedOut ↔
        (fun _ _ => SolveResult.unknown :
            List Block → ℚ → SolveResult) [] 0 = SolveResult.unknown) :=
  ⟨by norm_num,
    (C4_zero_budget (fun _ _ => SolveResult.unknown) [] 1 2 (by norm_num)).1,
    (C4_zero_budget (fun _ _ => SolveResult.unknown) [] 1 2 (by norm_num)).2⟩

end EqualTeams
